import Mathlib

/-!
Verification of the quoting and reconciliation engine in src/crypto/main.py.

The Python code works on floats; the shallow embedding below uses exact
rationals.  The Python built-in round uses round-half-to-even, modelled
here as pyRound.  math.floor and math.ceil become the integer floor and
ceiling on rationals.  A Python float that may be NaN is modelled as an
Option on rationals where none stands for NaN; comparisons against NaN
return false (IEEE semantics) and math.floor on NaN raises ValueError,
modelled with Except.
-/

namespace CryptoMain

/-- Python round: round half to even (bankers rounding), as used by the
built-in round on floats and by round(x, 2). -/
def pyRound (x : ℚ) : ℤ :=
  if x - ⌊x⌋ < 1/2 then ⌊x⌋
  else if 1/2 < x - ⌊x⌋ then ⌊x⌋ + 1
  else if ⌊x⌋ % 2 = 0 then ⌊x⌋ else ⌊x⌋ + 1

/-- Outcome side of a binary contract, field named type in the source. -/
inductive OType
  | YES
  | NO
deriving DecidableEq

/-- Order side. -/
inductive Side
  | BUY
  | SELL
deriving DecidableEq

/-- An order or position record as used by the dict records in main.py. -/
structure Order where
  otype : OType
  side : Side
  price : ℚ
  size : ℚ
deriving DecidableEq

/-- One order book level: price and available size. -/
structure PriceLevel where
  price : ℚ
  size : ℚ
deriving DecidableEq

/-- Order book: bids (descending), asks (ascending), tick and minimum size. -/
structure OrderBook where
  bids : List PriceLevel
  asks : List PriceLevel
  tick_size : ℚ
  min_order_size : ℚ
deriving DecidableEq

/-- math.isclose with the default rel_tol 1e-9 and abs_tol 0. -/
def isclose (a b : ℚ) : Bool :=
  decide (|a - b| ≤ max ((1/1000000000) * max |a| |b|) 0)

/-- is_matching from main.py line 32: same type, same side, close price. -/
def is_matching (a b : Order) : Bool :=
  a.otype == b.otype && a.side == b.side && isclose a.price b.price

/-- less_than from main.py line 36: a <= b + 1e-6. -/
def less_than (a b : ℚ) : Bool :=
  decide (a ≤ b + 1/1000000)

/-- to_size from main.py line 28: round to 2 decimals, floor at 0. -/
def to_size (x : ℚ) : ℚ :=
  max ((pyRound (x * 100) : ℚ) / 100) 0

/-- clamp_price from main.py line 683: restrict to the tradable band. -/
def clamp_price (tick x : ℚ) : ℚ :=
  max tick (min x (1 - tick))

/-- to_price from main.py line 688: round to the tick lattice, then clamp. -/
def to_price (tick x : ℚ) : ℚ :=
  clamp_price tick ((pyRound (x * (1 / tick)) : ℚ) / (1 / tick))

theorem floor_le_pyRound (x : ℚ) : ⌊x⌋ ≤ pyRound x := by
  unfold pyRound
  split_ifs <;> omega

theorem pyRound_le_floor_add_one (x : ℚ) : pyRound x ≤ ⌊x⌋ + 1 := by
  unfold pyRound
  split_ifs <;> omega

theorem pyRound_cast_le (x : ℚ) : (pyRound x : ℚ) ≤ x + 1/2 := by
  unfold pyRound
  split_ifs <;> push_cast <;>
    linarith [Int.floor_le x, Int.lt_floor_add_one x]

theorem le_pyRound_cast (x : ℚ) : x - 1/2 ≤ (pyRound x : ℚ) := by
  unfold pyRound
  split_ifs <;> push_cast <;>
    linarith [Int.floor_le x, Int.lt_floor_add_one x]

theorem pyRound_mono {x y : ℚ} (h : x ≤ y) : pyRound x ≤ pyRound y := by
  rcases lt_or_le ⌊x⌋ ⌊y⌋ with hf | hf
  · have h1 := pyRound_le_floor_add_one x
    have h2 := floor_le_pyRound y
    omega
  · have hfe : ⌊x⌋ = ⌊y⌋ := le_antisymm (Int.floor_le_floor h) hf
    unfold pyRound
    rw [hfe]
    split_ifs <;> first | omega | linarith

theorem pyRound_intCast (m : ℤ) : pyRound (m : ℚ) = m := by
  unfold pyRound
  have h0 : ⌊(m : ℚ)⌋ = m := Int.floor_intCast m
  rw [h0]
  norm_num

theorem clamp_price_mono (tick : ℚ) {x y : ℚ} (h : x ≤ y) :
    clamp_price tick x ≤ clamp_price tick y :=
  max_le_max le_rfl (min_le_min h le_rfl)

theorem tick_le_clamp_price (tick x : ℚ) : tick ≤ clamp_price tick x :=
  le_max_left _ _

theorem clamp_price_le (tick x : ℚ) (h : tick ≤ 1 - tick) :
    clamp_price tick x ≤ 1 - tick :=
  max_le h (min_le_right _ _)

theorem to_price_mono (tick : ℚ) (ht : 0 < tick) {x y : ℚ} (h : x ≤ y) :
    to_price tick x ≤ to_price tick y := by
  unfold to_price
  have ha : 0 < 1 / tick := by positivity
  have h1 : pyRound (x * (1 / tick)) ≤ pyRound (y * (1 / tick)) :=
    pyRound_mono (mul_le_mul_of_nonneg_right h ha.le)
  have h2 : ((pyRound (x * (1 / tick)) : ℚ)) / (1 / tick)
      ≤ ((pyRound (y * (1 / tick)) : ℚ)) / (1 / tick) := by
    apply (div_le_div_iff_of_pos_right ha).mpr
    exact_mod_cast h1
  exact clamp_price_mono tick h2

theorem tick_le_to_price (tick x : ℚ) : tick ≤ to_price tick x :=
  tick_le_clamp_price _ _

/-- Result of get_my_best_bid_ask, main.py line 383. -/
structure BidAsk where
  my_best_bid_price : ℚ
  my_best_ask_price : ℚ
  no_bid : Bool
  no_ask : Bool
deriving DecidableEq

/-- Bid branch of get_my_best_bid_ask when p_fair - r is nonnegative:
floor-round p_fair - r to the lattice, clamp, cap one tick above the best
bid, re-round. -/
def my_bid_calc (p_fair r tick best_bid_price : ℚ) : ℚ :=
  to_price tick
    (min (clamp_price tick ((⌊(p_fair - r) * (1 / tick)⌋ : ℚ) / (1 / tick)))
      (best_bid_price + tick))

/-- Ask branch of get_my_best_bid_ask when p_fair + r is at most one:
ceil-round p_fair + r to the lattice, clamp, cap one tick below the best
ask, re-round. -/
def my_ask_calc (p_fair r tick best_ask_price : ℚ) : ℚ :=
  to_price tick
    (max (clamp_price tick ((⌈(p_fair + r) * (1 / tick)⌉ : ℚ) / (1 / tick)))
      (best_ask_price - tick))

/-- get_my_best_bid_ask from main.py line 383.  When p_fair - r is
negative the bid is pinned to 0 with no_bid set; when p_fair + r exceeds 1
the ask is pinned to 1 with no_ask set. -/
def get_my_best_bid_ask (p_fair r tick best_bid_price best_ask_price : ℚ) :
    BidAsk :=
  { my_best_bid_price :=
      if p_fair - r < 0 then 0 else my_bid_calc p_fair r tick best_bid_price
    my_best_ask_price :=
      if 1 < p_fair + r then 1 else my_ask_calc p_fair r tick best_ask_price
    no_bid := decide (p_fair - r < 0)
    no_ask := decide (1 < p_fair + r) }

/-- get_snipe_mode from main.py line 408: snipe the bid when
best_bid - r > p_fair, snipe the ask when best_ask + r < p_fair. -/
def get_snipe_mode (p_fair r best_bid_price best_ask_price : ℚ) :
    Bool × Bool :=
  (decide (p_fair < best_bid_price - r), decide (best_ask_price + r < p_fair))

/-- was_executed from main.py line 42.  A resting order counts as filled
once the relevant best price has moved strictly past its price without
being close to it; an empty bid side yields the sentinel best bid 0 and an
empty ask side the sentinel best ask 1. -/
def was_executed (order_book : OrderBook) (o : Order) : Bool :=
  let best_bid_price :=
    match order_book.bids.head? with
    | some b => b.price
    | none => 0
  let best_ask_price :=
    match order_book.asks.head? with
    | some a => a.price
    | none => 1
  match o.otype, o.side with
  | OType.YES, Side.BUY =>
      !isclose best_bid_price o.price && decide (best_bid_price < o.price)
  | OType.YES, Side.SELL =>
      !isclose best_ask_price o.price && decide (o.price < best_ask_price)
  | OType.NO, Side.BUY =>
      !isclose (1 - best_ask_price) o.price
        && decide (1 - best_ask_price < o.price)
  | OType.NO, Side.SELL =>
      !isclose (1 - best_bid_price) o.price
        && decide (o.price < 1 - best_bid_price)

/-- Level walk of get_market_sell_value, main.py line 93: consume
min(size, level size) at each level, stop early once the remaining size
drops below 0.01.  For the NO side the proceeds price is 1 - ask price. -/
def sell_walk : List PriceLevel → Bool → ℚ → ℚ → ℚ
  | [], _, _, value => value
  | l :: rest, no_side, size, value =>
      let price := if no_side then 1 - l.price else l.price
      let size_matched := min size l.size
      let value2 := value + size_matched * price
      let size2 := size - size_matched
      if size2 < 1/100 then value2 else sell_walk rest no_side size2 value2

/-- get_market_sell_value from main.py line 93: walk the bids for a YES
position and the asks (at complement prices) for a NO position. -/
def get_market_sell_value (ptype : OType) (psize : ℚ)
    (order_book : OrderBook) : ℚ :=
  match ptype with
  | OType.YES => sell_walk order_book.bids false psize 0
  | OType.NO => sell_walk order_book.asks true psize 0

/-- Full proceeds of one book side: sum of effective price times size. -/
def side_value (levels : List PriceLevel) (no_side : Bool) : ℚ :=
  (levels.map (fun l => (if no_side then 1 - l.price else l.price) * l.size)).sum

/-- Total size available on one book side. -/
def side_depth (levels : List PriceLevel) : ℚ :=
  (levels.map PriceLevel.size).sum

/-- One pass of the inner loop of
reduce_order_plan_size_based_on_pending_orders over a single plan order:
reduce its size by the pending size when it matches and the pending size
is within tolerance of the plan size. -/
def reduce_step (p o : Order) : Order :=
  if is_matching o p && less_than p.size o.size then
    { o with size := o.size - p.size }
  else o

/-- Apply one pending order to every plan order (inner for loop). -/
def apply_one (p : Order) (plan : List Order) : List Order :=
  plan.map (reduce_step p)

/-- Copies of a pending order appended to new_pending_orders, one per
plan order it matched and reduced. -/
def kept_copies (p : Order) (plan : List Order) : List Order :=
  (plan.filter (fun o => is_matching o p && less_than p.size o.size)).map
    (fun _ => p)

/-- Outer loop over the pending orders, threading the mutated plan.
Returns the reduced plan and the new pending list. -/
def reconcile_loop : List Order → List Order → List Order × List Order
  | [], plan => (plan, [])
  | p :: ps, plan =>
      let step := reconcile_loop ps (apply_one p plan)
      (step.1, kept_copies p plan ++ step.2)

/-- reduce_order_plan_size_based_on_pending_orders from main.py line 666:
run the nested loops, then drop plan orders below min_order_size.  The
pending_longs and pending_shorts notional accumulators mutated alongside
are not observed by any claim and are omitted. -/
def reduce_order_plan_size_based_on_pending_orders
    (pending plan : List Order) (min_order_size : ℚ) :
    List Order × List Order :=
  let r := reconcile_loop pending plan
  (r.1.filter (fun o => decide (min_order_size ≤ o.size)), r.2)

/-- Total size of a list of orders. -/
def size_sum (l : List Order) : ℚ :=
  (l.map Order.size).sum

/-- Orders of a list lying in one exact (type, side, price) bucket. -/
def bucket (t : OType) (s : Side) (pr : ℚ) (l : List Order) : List Order :=
  l.filter (fun o => o.otype == t && o.side == s && o.price == pr)

theorem ceil_eq_neg_floor_neg (x : ℚ) : ⌈x⌉ = -⌊-x⌋ := by
  simp [Int.floor_neg]

/-! NaN model.  A Python float that may be NaN is an Option on rationals,
none standing for NaN.  Arithmetic propagates NaN, every ordered
comparison against NaN is false, and math.floor or math.ceil on NaN
raises ValueError, modelled as Except.error. -/

/-- Float subtraction with NaN propagation. -/
def fsub (a : Option ℚ) (b : ℚ) : Option ℚ :=
  a.map (fun x => x - b)

/-- Float addition with NaN propagation. -/
def fadd (a : Option ℚ) (b : ℚ) : Option ℚ :=
  a.map (fun x => x + b)

/-- Float multiplication with NaN propagation. -/
def fmul (a : Option ℚ) (b : ℚ) : Option ℚ :=
  a.map (fun x => x * b)

/-- Comparison a < b where a may be NaN: false on NaN. -/
def flt : Option ℚ → ℚ → Bool
  | none, _ => false
  | some x, b => decide (x < b)

/-- Comparison b < a where a may be NaN: false on NaN. -/
def fgt : Option ℚ → ℚ → Bool
  | none, _ => false
  | some x, b => decide (b < x)

/-- math.floor: raises ValueError on NaN. -/
def ffloor : Option ℚ → Except Unit ℤ
  | none => Except.error ()
  | some x => Except.ok ⌊x⌋

/-- math.ceil: raises ValueError on NaN. -/
def fceil : Option ℚ → Except Unit ℤ
  | none => Except.error ()
  | some x => Except.ok ⌈x⌉

/-- get_my_best_bid_ask with a possibly NaN p_fair, following the float
control flow of main.py line 383: the sign tests are false on NaN, so the
else branches run math.floor and math.ceil on a NaN product and raise. -/
def get_my_best_bid_ask_nan (p_fair : Option ℚ)
    (r tick best_bid_price best_ask_price : ℚ) : Except Unit BidAsk := do
  let a := 1 / tick
  let mb0 := fsub p_fair r
  let mb ←
    if flt mb0 0 then pure (0 : ℚ)
    else do
      let f ← ffloor (fmul mb0 a)
      pure (to_price tick
        (min (clamp_price tick ((f : ℚ) / a)) (best_bid_price + tick)))
  let ma0 := fadd p_fair r
  let ma ←
    if fgt ma0 1 then pure (1 : ℚ)
    else do
      let c ← fceil (fmul ma0 a)
      pure (to_price tick
        (max (clamp_price tick ((c : ℚ) / a)) (best_ask_price - tick)))
  pure ⟨mb, ma, flt mb0 0, fgt ma0 1⟩

/-- get_snipe_mode with a possibly NaN p_fair: both comparisons are false
on NaN, so no snipe mode triggers. -/
def get_snipe_mode_nan (p_fair : Option ℚ) (r best_bid_price best_ask_price : ℚ) :
    Bool × Bool :=
  (flt p_fair (best_bid_price - r), fgt p_fair (best_ask_price + r))

/-- get_order_plan from main.py line 533 with a possibly NaN p_fair.
Extracts book-top prices and sizes with the empty-book sentinels, asks the
quote generator (which may raise on NaN), then assembles up to four plan
orders: unwind YES, unwind NO, open YES, open NO, with the snipe
overrides of the source. -/
def get_order_plan_nan (p_fair : Option ℚ)
    (r tick min_order_size max_inventory yes_shares no_shares longs shorts : ℚ)
    (bids asks : List PriceLevel) : Except Unit (List Order) := do
  let best_bid_price :=
    match bids.head? with
    | some b => to_price tick b.price
    | none => 0
  let best_ask_price :=
    match asks.head? with
    | some a => to_price tick a.price
    | none => 1
  let best_bid_size :=
    match bids.head? with
    | some b => to_size b.size
    | none => 0
  let best_ask_size :=
    match asks.head? with
    | some a => to_size a.size
    | none => 0
  let q ← get_my_best_bid_ask_nan p_fair r tick best_bid_price best_ask_price
  let snipe := get_snipe_mode_nan p_fair r best_bid_price best_ask_price
  let long_inventory_left := max_inventory - longs
  let short_inventory_left := max_inventory - shorts
  let sell_yes : List Order :=
    if min_order_size ≤ yes_shares then
      if snipe.1 then
        [⟨OType.YES, Side.SELL, best_bid_price,
          min best_bid_size (to_size yes_shares)⟩]
      else [⟨OType.YES, Side.SELL, q.my_best_ask_price, to_size yes_shares⟩]
    else []
  let sell_no : List Order :=
    if min_order_size ≤ no_shares then
      if snipe.2 then
        [⟨OType.NO, Side.SELL, to_price tick (1 - best_ask_price),
          min best_ask_size (to_size no_shares)⟩]
      else
        [⟨OType.NO, Side.SELL, to_price tick (1 - q.my_best_bid_price),
          to_size no_shares⟩]
    else []
  let open_yes : List Order :=
    if 1 ≤ long_inventory_left ∧ q.no_bid = false then
      if snipe.2 then
        [⟨OType.YES, Side.BUY, best_ask_price,
          min (to_size (long_inventory_left / best_ask_price)) best_ask_size⟩]
      else
        [⟨OType.YES, Side.BUY, q.my_best_bid_price,
          to_size (long_inventory_left / q.my_best_bid_price)⟩]
    else []
  let open_no : List Order :=
    if 1 ≤ short_inventory_left ∧ q.no_ask = false then
      if snipe.1 then
        [⟨OType.NO, Side.BUY, to_price tick (1 - best_bid_price),
          min (to_size (short_inventory_left / to_price tick (1 - best_bid_price)))
            best_bid_size⟩]
      else
        [⟨OType.NO, Side.BUY, to_price tick (1 - q.my_best_ask_price),
          to_size (short_inventory_left / to_price tick (1 - q.my_best_ask_price))⟩]
    else []
  pure (sell_yes ++ sell_no ++ open_yes ++ open_no)

/-! Claim theorems. -/

/-- C2 (counterexample).  On the fixture tick_size 1/100, p 1/2, r 1/200,
best_bid 48/100, best_ask 55/100, the quote generator does not return
my_ask 55/100 as the claim states: the ask candidate ceil(50.5)/100 =
51/100 is capped from below by best_ask - tick = 54/100, giving 54/100. -/
theorem quote_fixture_ask_is_not_55 :
    get_my_best_bid_ask (1/2) (1/200) (1/100) (48/100) (55/100) ≠
      ⟨49/100, 55/100, false, false⟩ := by
  norm_num [get_my_best_bid_ask, my_bid_calc, my_ask_calc, to_price,
    clamp_price, pyRound, min_def, max_def, ceil_eq_neg_floor_neg,
    BidAsk.mk.injEq]

/-- C2 (amended).  On the fixture the quote generator returns my_bid
49/100 and my_ask 54/100 with both flags clear, matching the parenthetical
computation of the spec rather than its headline 0.55. -/
theorem quote_fixture_values :
    get_my_best_bid_ask (1/2) (1/200) (1/100) (48/100) (55/100) =
      ⟨49/100, 54/100, false, false⟩ := by
  norm_num [get_my_best_bid_ask, my_bid_calc, my_ask_calc, to_price,
    clamp_price, pyRound, min_def, max_def, ceil_eq_neg_floor_neg]

/-- C3.  For p_fair in the unit interval, r positive and tick in
(0, 1/2), whenever both quote flags are clear the returned bid does not
exceed the returned ask. -/
theorem my_bid_le_my_ask (p_fair r tick bb ba : ℚ)
    (hp0 : 0 ≤ p_fair) (hp1 : p_fair ≤ 1) (hr : 0 < r)
    (ht0 : 0 < tick) (ht1 : tick < 1/2)
    (hnb : (get_my_best_bid_ask p_fair r tick bb ba).no_bid = false)
    (hna : (get_my_best_bid_ask p_fair r tick bb ba).no_ask = false) :
    (get_my_best_bid_ask p_fair r tick bb ba).my_best_bid_price ≤
      (get_my_best_bid_ask p_fair r tick bb ba).my_best_ask_price := by
  have h1 : ¬(p_fair - r < 0) := by
    simpa [get_my_best_bid_ask] using hnb
  have h2 : ¬(1 < p_fair + r) := by
    simpa [get_my_best_bid_ask] using hna
  simp only [get_my_best_bid_ask, if_neg h1, if_neg h2]
  unfold my_bid_calc my_ask_calc
  apply to_price_mono tick ht0
  have ha : (0:ℚ) < 1 / tick := by positivity
  have hfloor : ((⌊(p_fair - r) * (1 / tick)⌋ : ℚ) / (1 / tick))
      ≤ ((⌈(p_fair + r) * (1 / tick)⌉ : ℚ) / (1 / tick)) := by
    apply (div_le_div_iff_of_pos_right ha).mpr
    calc ((⌊(p_fair - r) * (1 / tick)⌋ : ℚ)) ≤ (p_fair - r) * (1 / tick) :=
          Int.floor_le _
      _ ≤ (p_fair + r) * (1 / tick) := by nlinarith
      _ ≤ ((⌈(p_fair + r) * (1 / tick)⌉ : ℚ)) := Int.le_ceil _
  calc min (clamp_price tick ((⌊(p_fair - r) * (1 / tick)⌋ : ℚ) / (1 / tick)))
        (bb + tick)
      ≤ clamp_price tick ((⌊(p_fair - r) * (1 / tick)⌋ : ℚ) / (1 / tick)) :=
        min_le_left _ _
    _ ≤ clamp_price tick ((⌈(p_fair + r) * (1 / tick)⌉ : ℚ) / (1 / tick)) :=
        clamp_price_mono tick hfloor
    _ ≤ max (clamp_price tick ((⌈(p_fair + r) * (1 / tick)⌉ : ℚ) / (1 / tick)))
        (ba - tick) := le_max_left _ _

/-- C3 (witness). -/
theorem my_bid_le_my_ask_witness :
    (get_my_best_bid_ask (1/2) (1/200) (1/100) (48/100) (55/100)).my_best_bid_price ≤
      (get_my_best_bid_ask (1/2) (1/200) (1/100) (48/100) (55/100)).my_best_ask_price :=
  my_bid_le_my_ask (1/2) (1/200) (1/100) (48/100) (55/100)
    (by norm_num) (by norm_num) (by norm_num) (by norm_num) (by norm_num)
    (by norm_num [get_my_best_bid_ask]) (by norm_num [get_my_best_bid_ask])

/-- C7.  When r is positive and the best bid is below the best ask, the
two snipe flags are never both set, so the invariant-violation branch of
get_snipe_mode is unreachable. -/
theorem snipe_flags_not_both (p_fair r bb ba : ℚ)
    (hr : 0 < r) (hlt : bb < ba) :
    ¬((get_snipe_mode p_fair r bb ba).1 = true ∧
      (get_snipe_mode p_fair r bb ba).2 = true) := by
  simp only [get_snipe_mode, decide_eq_true_eq]
  intro h
  linarith [h.1, h.2]

/-- C7 (witness). -/
theorem snipe_flags_not_both_witness :
    ¬((get_snipe_mode (1/2) (1/200) (48/100) (55/100)).1 = true ∧
      (get_snipe_mode (1/2) (1/200) (48/100) (55/100)).2 = true) :=
  snipe_flags_not_both (1/2) (1/200) (48/100) (55/100)
    (by norm_num) (by norm_num)

/-- C9.  With tick in (0, 1/2): when no_bid is clear the bid used as the
open-YES division denominator is at least tick, and when no_ask is clear
the open-NO denominator to_price(1 - my_ask) is at least tick, both being
outputs of the clamp to the band [tick, 1 - tick]; hence the size
divisions in get_order_plan never divide by zero. -/
theorem quote_denominators_ge_tick (p_fair r tick bb ba : ℚ)
    (ht0 : 0 < tick) (ht1 : tick < 1/2) :
    ((get_my_best_bid_ask p_fair r tick bb ba).no_bid = false →
      tick ≤ (get_my_best_bid_ask p_fair r tick bb ba).my_best_bid_price) ∧
    ((get_my_best_bid_ask p_fair r tick bb ba).no_ask = false →
      tick ≤ to_price tick
        (1 - (get_my_best_bid_ask p_fair r tick bb ba).my_best_ask_price)) := by
  constructor
  · intro h
    have h1 : ¬(p_fair - r < 0) := by
      simpa [get_my_best_bid_ask] using h
    simp only [get_my_best_bid_ask, if_neg h1]
    unfold my_bid_calc
    exact tick_le_to_price _ _
  · intro _
    exact tick_le_to_price _ _

/-- C9 (witness). -/
theorem quote_denominators_ge_tick_witness :
    ((get_my_best_bid_ask (1/2) (1/200) (1/100) (48/100) (55/100)).no_bid = false →
      (1:ℚ)/100 ≤
        (get_my_best_bid_ask (1/2) (1/200) (1/100) (48/100) (55/100)).my_best_bid_price) ∧
    ((get_my_best_bid_ask (1/2) (1/200) (1/100) (48/100) (55/100)).no_ask = false →
      (1:ℚ)/100 ≤ to_price (1/100)
        (1 - (get_my_best_bid_ask (1/2) (1/200) (1/100) (48/100) (55/100)).my_best_ask_price)) :=
  quote_denominators_ge_tick (1/2) (1/200) (1/100) (48/100) (55/100)
    (by norm_num) (by norm_num)

/-- C6 (counterexample).  For tick_size 3/10, which lies in (0, 1/2) but
whose reciprocal 10/3 is not an integer, to_price is not idempotent:
to_price(9/10) clamps to 7/10, but to_price(7/10) rounds 7/3 down to 2 and
returns 3/5. -/
theorem to_price_not_idempotent_at_tick_3_10 :
    to_price (3/10) (to_price (3/10) (9/10)) ≠ to_price (3/10) (9/10) := by
  norm_num [to_price, clamp_price, pyRound, min_def, max_def]

/-- C6 (amended).  For every tick_size of the form 1/n with n a natural
number at least 3 (so tick in (0, 1/2) and 1/tick an integer, which holds
for every real market tick such as 1/100), to_price is idempotent: the
first application lands on the clamped lattice, whose points are mapped
to themselves. -/
theorem to_price_idempotent_unit_tick (n : ℕ) (hn : 3 ≤ n) (x : ℚ) :
    to_price (1/(n:ℚ)) (to_price (1/(n:ℚ)) x) = to_price (1/(n:ℚ)) x := by
  have hn0 : (0:ℚ) < (n:ℚ) := by
    have : (0:ℕ) < n := by omega
    exact_mod_cast this
  have hne : (n:ℚ) ≠ 0 := ne_of_gt hn0
  have hinv : (1:ℚ) / (1/(n:ℚ)) = (n:ℚ) := one_div_one_div _
  have hband : (1:ℚ)/(n:ℚ) ≤ 1 - 1/(n:ℚ) := by
    have h2 : (2:ℚ) ≤ (n:ℚ) := by
      have : (2:ℕ) ≤ n := by omega
      exact_mod_cast this
    rw [le_sub_iff_add_le, div_add_div_same, div_le_one hn0]
    linarith
  have fixpoint : ∀ m : ℤ, (1:ℚ)/(n:ℚ) ≤ (m:ℚ)/(n:ℚ) →
      (m:ℚ)/(n:ℚ) ≤ 1 - 1/(n:ℚ) →
      to_price (1/(n:ℚ)) ((m:ℚ)/(n:ℚ)) = (m:ℚ)/(n:ℚ) := by
    intro m h1 h2
    unfold to_price clamp_price
    rw [hinv, div_mul_cancel₀ _ hne, pyRound_intCast,
      min_eq_left h2, max_eq_right h1]
  have hy : to_price (1/(n:ℚ)) x =
      clamp_price (1/(n:ℚ)) ((pyRound (x * (n:ℚ)) : ℚ)/(n:ℚ)) := by
    unfold to_price
    rw [hinv]
  rw [hy]
  set k : ℤ := pyRound (x * (n:ℚ)) with hk
  rcases le_or_lt ((k:ℚ)/(n:ℚ)) ((1:ℚ)/(n:ℚ)) with hA | hA
  · have hcl : clamp_price (1/(n:ℚ)) ((k:ℚ)/(n:ℚ)) = (1:ℚ)/(n:ℚ) := by
      unfold clamp_price
      rw [min_eq_left (le_trans hA hband), max_eq_left hA]
    rw [hcl]
    have ht1 : (1:ℚ)/(n:ℚ) = (((1:ℤ)):ℚ)/(n:ℚ) := by norm_num
    rw [ht1]
    exact fixpoint 1 (by rw [← ht1]) (by rw [← ht1]; exact hband)
  · rcases le_or_lt ((k:ℚ)/(n:ℚ)) (1 - 1/(n:ℚ)) with hB | hB
    · have hcl : clamp_price (1/(n:ℚ)) ((k:ℚ)/(n:ℚ)) = (k:ℚ)/(n:ℚ) := by
        unfold clamp_price
        rw [min_eq_left hB, max_eq_right hA.le]
      rw [hcl]
      exact fixpoint k hA.le hB
    · have hcl : clamp_price (1/(n:ℚ)) ((k:ℚ)/(n:ℚ)) = 1 - 1/(n:ℚ) := by
        unfold clamp_price
        rw [min_eq_right hB.le]
        exact max_eq_right hband
      rw [hcl]
      have he : 1 - (1:ℚ)/(n:ℚ) = (((n:ℤ) - 1 : ℤ):ℚ)/(n:ℚ) := by
        push_cast
        field_simp
      rw [he]
      exact fixpoint ((n:ℤ) - 1) (by rw [← he]; exact hband) (by rw [← he])

/-- C6 (witness). -/
theorem to_price_idempotent_unit_tick_witness :
    to_price (1/((100:ℕ):ℚ)) (to_price (1/((100:ℕ):ℚ)) (1/3)) =
      to_price (1/((100:ℕ):ℚ)) (1/3) :=
  to_price_idempotent_unit_tick 100 (by norm_num) (1/3)

/-- isclose never identifies 0 with a strictly positive price: the
relative tolerance scales with the price itself. -/
theorem isclose_zero_pos (pr : ℚ) (hp : 0 < pr) : isclose 0 pr = false := by
  simp only [isclose, decide_eq_false_iff_not]
  intro hcon
  rw [zero_sub, abs_neg, abs_zero, abs_of_pos hp, max_eq_right hp.le,
    max_eq_left (by positivity)] at hcon
  linarith

/-- isclose never identifies 1 with a price at least t below it, provided
t exceeds the relative tolerance 1e-9. -/
theorem isclose_one_far (pr t : ℚ) (ht : 1/1000000000 < t)
    (hpr : pr ≤ 1 - t) : isclose 1 pr = false := by
  simp only [isclose, decide_eq_false_iff_not]
  intro hcon
  rw [abs_of_nonneg (by linarith : (0:ℚ) ≤ 1 - pr), abs_one] at hcon
  rcases le_or_lt |pr| 1 with hm | hm
  · rw [max_eq_left hm, mul_one, max_eq_left (by norm_num)] at hcon
    linarith
  · rw [max_eq_right hm.le, max_eq_left (by positivity)] at hcon
    have hneg : pr < 0 := by
      rcases abs_cases pr with ⟨he, h0⟩ | ⟨he, h0⟩
      · rw [he] at hm
        linarith
      · exact h0
    rw [abs_of_neg hneg] at hcon
    linarith

/-- C10 (counterexample).  With tick_size 1e-10 and an empty ask side,
the YES SELL order at price 1 - 1e-10 (which satisfies price at most
1 - tick_size) is not classified as filled: isclose matches its price
with the sentinel best ask 1, because the 1e-9 relative tolerance
exceeds the tick. -/
theorem was_executed_empty_ask_cex :
    ((⟨[], [], 1/10000000000, 1⟩ : OrderBook).asks = [] ∧
      (1:ℚ) - 1/10000000000 ≤
        1 - (⟨[], [], 1/10000000000, 1⟩ : OrderBook).tick_size) ∧
    was_executed ⟨[], [], 1/10000000000, 1⟩
      ⟨OType.YES, Side.SELL, 1 - 1/10000000000, 5⟩ = false := by
  refine ⟨⟨rfl, by norm_num⟩, ?_⟩
  norm_num [was_executed, isclose, abs_eq_max_neg, max_def]

/-- C10 (amended).  With an empty bid side every pending YES BUY order at
a strictly positive price is classified as filled by was_executed; with
an empty ask side every pending YES SELL order at price at most
1 - tick_size is classified as filled provided tick_size exceeds the
isclose relative tolerance 1e-9 (true of any real market tick). -/
theorem empty_book_side_fills (book : OrderBook) (o : Order) :
    (book.bids = [] → o.otype = OType.YES → o.side = Side.BUY →
      0 < o.price → was_executed book o = true) ∧
    (book.asks = [] → o.otype = OType.YES → o.side = Side.SELL →
      1/1000000000 < book.tick_size → o.price ≤ 1 - book.tick_size →
      was_executed book o = true) := by
  obtain ⟨bids, asks, ts, ms⟩ := book
  obtain ⟨ot, os, pr, sz⟩ := o
  dsimp only
  constructor
  · intro hb ht hs hp
    subst hb ht hs
    simp only [was_executed, List.head?_nil]
    simp [isclose_zero_pos pr hp, hp]
  · intro ha ht hs hts hpr
    subst ha ht hs
    simp only [was_executed, List.head?_nil]
    have hpr1 : pr < 1 := by linarith
    simp [isclose_one_far pr ts hts hpr, hpr1]

/-- C10 (witness). -/
theorem empty_book_side_fills_witness :
    was_executed ⟨[], [⟨55/100, 3⟩], 1/100, 1⟩
      ⟨OType.YES, Side.BUY, 1/100, 2⟩ = true ∧
    was_executed ⟨[⟨48/100, 3⟩], [], 1/100, 1⟩
      ⟨OType.YES, Side.SELL, 99/100, 2⟩ = true :=
  ⟨(empty_book_side_fills _ _).1 rfl rfl rfl (by norm_num),
   (empty_book_side_fills _ _).2 rfl rfl rfl (by norm_num) (by norm_num)⟩

/-- The book side walked by get_market_sell_value for a position type. -/
def walked_levels (ptype : OType) (book : OrderBook) : List PriceLevel :=
  match ptype with
  | OType.YES => book.bids
  | OType.NO => book.asks

/-- Whether the walk prices levels at the NO complement 1 - ask. -/
def is_no_side (ptype : OType) : Bool :=
  match ptype with
  | OType.YES => false
  | OType.NO => true

theorem side_value_nonneg (levels : List PriceLevel) (no_side : Bool)
    (h : ∀ l ∈ levels,
      0 ≤ (if no_side then 1 - l.price else l.price) ∧ 0 ≤ l.size) :
    0 ≤ side_value levels no_side := by
  apply List.sum_nonneg
  intro q hq
  simp only [List.mem_map] at hq
  obtain ⟨l, hl, rfl⟩ := hq
  exact mul_nonneg (h l hl).1 (h l hl).2

theorem sell_walk_le (levels : List PriceLevel) (no_side : Bool)
    (h : ∀ l ∈ levels,
      0 ≤ (if no_side then 1 - l.price else l.price) ∧ 0 ≤ l.size) :
    ∀ size value : ℚ,
      sell_walk levels no_side size value ≤ value + side_value levels no_side := by
  induction levels with
  | nil =>
      intro size value
      simp [sell_walk, side_value]
  | cons l rest ih =>
      intro size value
      have hl := h l (by simp)
      have hrest : ∀ l2 ∈ rest,
          0 ≤ (if no_side then 1 - l2.price else l2.price) ∧ 0 ≤ l2.size :=
        fun l2 hm => h l2 (by simp [hm])
      have hrest_nonneg : 0 ≤ side_value rest no_side :=
        side_value_nonneg rest no_side hrest
      simp only [sell_walk]
      set P : ℚ := if no_side = true then 1 - l.price else l.price with hP
      have hsv : side_value (l :: rest) no_side =
          P * l.size + side_value rest no_side := by
        simp only [side_value, List.map_cons, List.sum_cons, ← hP]
      have hmin : min size l.size * P ≤ P * l.size := by
        rw [mul_comm]
        exact mul_le_mul_of_nonneg_left (min_le_right _ _) hl.1
      rcases lt_or_le (size - min size l.size) ((1:ℚ)/100) with hstop | hstop
      · rw [if_pos hstop, hsv]
        linarith
      · rw [if_neg (not_lt.mpr hstop), hsv]
        have hrec := ih hrest (size - min size l.size)
          (value + min size l.size * P)
        linarith

theorem side_depth_nonneg (levels : List PriceLevel)
    (h : ∀ l ∈ levels, 0 ≤ l.size) : 0 ≤ side_depth levels := by
  apply List.sum_nonneg
  intro q hq
  simp only [List.mem_map] at hq
  obtain ⟨l, hl, rfl⟩ := hq
  exact h l hl

theorem sell_walk_full (levels : List PriceLevel) (no_side : Bool)
    (hsz : ∀ l ∈ levels, 0 ≤ l.size) :
    ∀ size value : ℚ, side_depth levels + 1/100 ≤ size →
      sell_walk levels no_side size value = value + side_value levels no_side := by
  induction levels with
  | nil =>
      intro size value _
      simp [sell_walk, side_value]
  | cons l rest ih =>
      intro size value hbig
      have hl : 0 ≤ l.size := hsz l (by simp)
      have hrest : ∀ l2 ∈ rest, 0 ≤ l2.size := fun l2 hm => hsz l2 (by simp [hm])
      have hrd : 0 ≤ side_depth rest := side_depth_nonneg rest hrest
      have hdc : side_depth (l :: rest) = l.size + side_depth rest := by
        simp [side_depth]
      rw [hdc] at hbig
      simp only [sell_walk]
      have hmin : min size l.size = l.size := min_eq_right (by linarith)
      rw [hmin]
      rw [if_neg (by push_neg; linarith : ¬(size - l.size < 1/100))]
      rw [ih hrest (size - l.size)
        (value + l.size * (if no_side then 1 - l.price else l.price))
        (by linarith)]
      have hsv : side_value (l :: rest) no_side =
          (if no_side then 1 - l.price else l.price) * l.size +
            side_value rest no_side := by
        simp [side_value]
      rw [hsv]
      ring

/-- C8 (counterexample).  A YES position of 10.006 exceeds the total bid
depth 10.005 of the book [(0.5, 10), (0.5, 0.005)], yet
get_market_sell_value returns 5, not the full-depth proceeds 5.0025: the
early-exit threshold size < 0.01 fires after the first level and skips
the 0.005-size tail level. -/
theorem market_sell_value_full_depth_cex :
    side_depth [⟨1/2, 10⟩, ⟨1/2, 1/200⟩] < 10006/1000 ∧
    get_market_sell_value OType.YES (10006/1000)
      ⟨[⟨1/2, 10⟩, ⟨1/2, 1/200⟩], [], 1/100, 1⟩ = 5 ∧
    side_value [⟨1/2, 10⟩, ⟨1/2, 1/200⟩] false = 5 + 1/400 := by
  refine ⟨by norm_num [side_depth], ?_, by norm_num [side_value]⟩
  norm_num [get_market_sell_value, sell_walk, min_def]

/-- C8 (amended).  For every position and every book whose walked-side
levels have prices in [0, 1] and nonnegative sizes (the data-model book
invariant), get_market_sell_value is total by construction and returns at
most the walked side's total proceeds (NO prices taken as 1 - ask); and
whenever the position size exceeds the total side depth by at least 0.01
(the early-exit threshold) it returns exactly the full-depth proceeds. -/
theorem market_sell_value_bounded_and_full (ptype : OType) (psize : ℚ)
    (book : OrderBook)
    (hlv : ∀ l ∈ walked_levels ptype book,
      0 ≤ l.price ∧ l.price ≤ 1 ∧ 0 ≤ l.size) :
    (get_market_sell_value ptype psize book ≤
      side_value (walked_levels ptype book) (is_no_side ptype)) ∧
    (side_depth (walked_levels ptype book) + 1/100 ≤ psize →
      get_market_sell_value ptype psize book =
        side_value (walked_levels ptype book) (is_no_side ptype)) := by
  have heq : get_market_sell_value ptype psize book =
      sell_walk (walked_levels ptype book) (is_no_side ptype) psize 0 := by
    cases ptype <;> rfl
  have hpos : ∀ l ∈ walked_levels ptype book,
      0 ≤ (if is_no_side ptype then 1 - l.price else l.price) ∧ 0 ≤ l.size := by
    intro l hl
    obtain ⟨h1, h2, h3⟩ := hlv l hl
    refine ⟨?_, h3⟩
    split_ifs <;> linarith
  constructor
  · rw [heq]
    have := sell_walk_le (walked_levels ptype book) (is_no_side ptype) hpos psize 0
    linarith
  · intro hbig
    rw [heq]
    have := sell_walk_full (walked_levels ptype book) (is_no_side ptype)
      (fun l hl => (hlv l hl).2.2) psize 0 hbig
    linarith

/-- C8 (witness). -/
theorem market_sell_value_bounded_and_full_witness :
    (get_market_sell_value OType.YES 3 ⟨[⟨1/2, 2⟩], [], 1/100, 1⟩ ≤
      side_value (walked_levels OType.YES ⟨[⟨1/2, 2⟩], [], 1/100, 1⟩)
        (is_no_side OType.YES)) ∧
    get_market_sell_value OType.YES 3 ⟨[⟨1/2, 2⟩], [], 1/100, 1⟩ =
      side_value (walked_levels OType.YES ⟨[⟨1/2, 2⟩], [], 1/100, 1⟩)
        (is_no_side OType.YES) := by
  have h := market_sell_value_bounded_and_full OType.YES 3
    ⟨[⟨1/2, 2⟩], [], 1/100, 1⟩
    (by intro l hl
        simp only [walked_levels, List.mem_singleton] at hl
        subst hl
        norm_num)
  exact ⟨h.1, h.2 (by norm_num [walked_levels, side_depth])⟩

/-- C1 (counterexample).  Pending YES BUY at 1/2 of size 10 against a
matching plan order of size 5 with min_order_size 1: the claim predicts
the plan order is dropped and the pending order kept, but the code keeps
the plan order untouched and removes the pending order (the reduction
branch requires pending size at most plan size plus 1e-6, and a pending
order is re-kept only inside that branch). -/
theorem reduce_plan_keeps_plan_drops_pending_cex :
    reduce_order_plan_size_based_on_pending_orders
      [⟨OType.YES, Side.BUY, 1/2, 10⟩] [⟨OType.YES, Side.BUY, 1/2, 5⟩] 1 =
      ([⟨OType.YES, Side.BUY, 1/2, 5⟩], []) := by
  norm_num [reduce_order_plan_size_based_on_pending_orders, reconcile_loop,
    apply_one, kept_copies, reduce_step, is_matching, isclose, less_than,
    List.filter]

/-- C1 (amended).  For a pending order matching a plan order on (type,
side, price within tolerance): when the pending size exceeds the plan
size beyond the 1e-6 tolerance, the plan order passes through with its
size unchanged (surviving exactly when at least min_order_size) and the
pending order is dropped from the pending set; when the pending size is
within tolerance, the plan size is reduced by the pending size and the
pending order is kept; and every surviving plan order has size at least
min_order_size. -/
theorem reduce_plan_pending_vs_plan (p o : Order) (m : ℚ)
    (hm : is_matching o p = true) :
    (less_than p.size o.size = false →
      reduce_order_plan_size_based_on_pending_orders [p] [o] m =
        ((if m ≤ o.size then [o] else []), [])) ∧
    (less_than p.size o.size = true →
      reduce_order_plan_size_based_on_pending_orders [p] [o] m =
        ((if m ≤ o.size - p.size then [{ o with size := o.size - p.size }]
          else []), [p])) ∧
    (∀ pending plan : List Order,
      ∀ q ∈ (reduce_order_plan_size_based_on_pending_orders pending plan m).1,
        m ≤ q.size) := by
  refine ⟨?_, ?_, ?_⟩
  · intro h
    rcases le_or_lt m o.size with hms | hms
    · simp [reduce_order_plan_size_based_on_pending_orders, reconcile_loop,
        apply_one, kept_copies, reduce_step, hm, h, List.filter_cons, hms]
    · simp [reduce_order_plan_size_based_on_pending_orders, reconcile_loop,
        apply_one, kept_copies, reduce_step, hm, h, List.filter_cons,
        not_le.mpr hms]
  · intro h
    rcases le_or_lt m (o.size - p.size) with hms | hms
    · simp [reduce_order_plan_size_based_on_pending_orders, reconcile_loop,
        apply_one, kept_copies, reduce_step, hm, h, List.filter_cons, hms]
    · simp [reduce_order_plan_size_based_on_pending_orders, reconcile_loop,
        apply_one, kept_copies, reduce_step, hm, h, List.filter_cons,
        not_le.mpr hms]
  · intro pending plan q hq
    simp only [reduce_order_plan_size_based_on_pending_orders] at hq
    rw [List.mem_filter] at hq
    exact of_decide_eq_true hq.2

/-- C1 (witness). -/
theorem reduce_plan_pending_vs_plan_witness :
    reduce_order_plan_size_based_on_pending_orders
      [⟨OType.YES, Side.BUY, 1/2, 10⟩] [⟨OType.YES, Side.BUY, 1/2, 5⟩] 1 =
      ((if (1:ℚ) ≤ (5:ℚ) then [⟨OType.YES, Side.BUY, 1/2, 5⟩] else []), []) := by
  have h := reduce_plan_pending_vs_plan
    ⟨OType.YES, Side.BUY, 1/2, 10⟩ ⟨OType.YES, Side.BUY, 1/2, 5⟩ 1
    (by norm_num [is_matching, isclose])
  exact h.1 (by norm_num [less_than])

theorem kept_apply_sum (p : Order) (plan : List Order) :
    size_sum (kept_copies p plan) + size_sum (apply_one p plan) =
      size_sum plan := by
  induction plan with
  | nil => simp [kept_copies, apply_one, size_sum]
  | cons o rest ih =>
      rcases hco : (is_matching o p && less_than p.size o.size) with _ | _
      · have hk : kept_copies p (o :: rest) = kept_copies p rest := by
          simp [kept_copies, List.filter_cons, hco]
        have ha : apply_one p (o :: rest) = o :: apply_one p rest := by
          simp [apply_one, reduce_step, hco]
        have hs : size_sum (o :: apply_one p rest) =
            o.size + size_sum (apply_one p rest) := by
          simp [size_sum]
        have hs2 : size_sum (o :: rest) = o.size + size_sum rest := by
          simp [size_sum]
        rw [hk, ha, hs, hs2]
        linarith
      · have hk : kept_copies p (o :: rest) = p :: kept_copies p rest := by
          simp [kept_copies, List.filter_cons, hco]
        have ha : apply_one p (o :: rest) =
            { o with size := o.size - p.size } :: apply_one p rest := by
          simp [apply_one, reduce_step, hco]
        have hs : size_sum (p :: kept_copies p rest) =
            p.size + size_sum (kept_copies p rest) := by
          simp [size_sum]
        have hs2 : size_sum ({ o with size := o.size - p.size } ::
            apply_one p rest) =
            (o.size - p.size) + size_sum (apply_one p rest) := by
          simp [size_sum]
        have hs3 : size_sum (o :: rest) = o.size + size_sum rest := by
          simp [size_sum]
        rw [hk, ha, hs, hs2, hs3]
        linarith

theorem reconcile_loop_sum : ∀ pending plan : List Order,
    size_sum (reconcile_loop pending plan).2 +
      size_sum (reconcile_loop pending plan).1 = size_sum plan := by
  intro pending
  induction pending with
  | nil => intro plan; simp [reconcile_loop, size_sum]
  | cons p ps ih =>
      intro plan
      have happ : size_sum (kept_copies p plan ++
          (reconcile_loop ps (apply_one p plan)).2) =
          size_sum (kept_copies p plan) +
            size_sum (reconcile_loop ps (apply_one p plan)).2 := by
        simp [size_sum]
      simp only [reconcile_loop]
      rw [happ]
      have := ih (apply_one p plan)
      have := kept_apply_sum p plan
      linarith

theorem apply_one_lb (p : Order) (plan : List Order)
    (h : ∀ o ∈ plan, -(1:ℚ)/1000000 ≤ o.size) :
    ∀ q ∈ apply_one p plan, -(1:ℚ)/1000000 ≤ q.size := by
  intro q hq
  simp only [apply_one, List.mem_map] at hq
  obtain ⟨o, ho, rfl⟩ := hq
  unfold reduce_step
  rcases hco : (is_matching o p && less_than p.size o.size) with _ | _
  · simpa [hco] using h o ho
  · have hlt : p.size ≤ o.size + 1/1000000 := by
      rcases Bool.and_eq_true _ _ |>.mp hco with ⟨_, h2⟩
      simpa [less_than] using h2
    simp only [hco, if_true]
    linarith

theorem reconcile_loop_lb : ∀ pending plan : List Order,
    (∀ o ∈ plan, -(1:ℚ)/1000000 ≤ o.size) →
    ∀ q ∈ (reconcile_loop pending plan).1, -(1:ℚ)/1000000 ≤ q.size := by
  intro pending
  induction pending with
  | nil => intro plan h q hq; exact h q hq
  | cons p ps ih =>
      intro plan h q hq
      simp only [reconcile_loop] at hq
      exact ih (apply_one p plan) (apply_one_lb p plan h) q hq

theorem reconcile_loop_len : ∀ pending plan : List Order,
    (reconcile_loop pending plan).1.length = plan.length := by
  intro pending
  induction pending with
  | nil => intro plan; rfl
  | cons p ps ih =>
      intro plan
      simp only [reconcile_loop]
      rw [ih (apply_one p plan)]
      simp [apply_one]

theorem filter_sum_lb (m : ℚ) : ∀ l : List Order,
    (∀ o ∈ l, -(1:ℚ)/1000000 ≤ o.size) →
    size_sum (l.filter (fun o => decide (m ≤ o.size))) ≤
      size_sum l + l.length * (1/1000000) := by
  intro l
  induction l with
  | nil => intro _; simp [size_sum]
  | cons o rest ih =>
      intro h
      have ho := h o (by simp)
      have hrest : ∀ q ∈ rest, -(1:ℚ)/1000000 ≤ q.size :=
        fun q hq => h q (by simp [hq])
      have hih := ih hrest
      have hlen : ((o :: rest).length : ℚ) = rest.length + 1 := by
        push_cast [List.length_cons]
        ring
      rw [List.filter_cons]
      rcases hd : decide (m ≤ o.size) with _ | _
      · simp only [Bool.false_eq_true, if_false]
        have hs : size_sum (o :: rest) = o.size + size_sum rest := by
          simp [size_sum]
        rw [hs, hlen]
        linarith
      · simp only [if_true]
        have hs : size_sum (o :: List.filter (fun o => decide (m ≤ o.size)) rest) =
            o.size + size_sum (List.filter (fun o => decide (m ≤ o.size)) rest) := by
          simp [size_sum]
        have hs2 : size_sum (o :: rest) = o.size + size_sum rest := by
          simp [size_sum]
        rw [hs, hs2, hlen]
        linarith

/-- C4 (counterexample).  Pending YES BUY at 1/2 of size 5 + 1e-6 against
a plan order of the same bucket of size 5 with min_order_size 1: the
reduction branch fires (5 + 1e-6 is at most 5 + 1e-6), the plan order
drops to size -1e-6 and is filtered out, while the pending order is kept;
the bucket then holds 5 + 1e-6 in kept pending plus 0 surviving plan,
which exceeds the pre-reconciliation plan size 5 of that bucket. -/
theorem reduce_plan_bucket_conservation_cex :
    size_sum (bucket OType.YES Side.BUY (1/2)
        (reduce_order_plan_size_based_on_pending_orders
          [⟨OType.YES, Side.BUY, 1/2, 5 + 1/1000000⟩]
          [⟨OType.YES, Side.BUY, 1/2, 5⟩] 1).2) +
      size_sum (bucket OType.YES Side.BUY (1/2)
        (reduce_order_plan_size_based_on_pending_orders
          [⟨OType.YES, Side.BUY, 1/2, 5 + 1/1000000⟩]
          [⟨OType.YES, Side.BUY, 1/2, 5⟩] 1).1) >
      size_sum (bucket OType.YES Side.BUY (1/2)
        [⟨OType.YES, Side.BUY, 1/2, 5⟩]) := by
  norm_num [reduce_order_plan_size_based_on_pending_orders, reconcile_loop,
    apply_one, kept_copies, reduce_step, is_matching, isclose, less_than,
    List.filter, bucket, size_sum]

/-- C4 (amended).  Size conservation holds globally up to the comparison
tolerance: for plan orders of nonnegative size, the total size of kept
pending orders plus surviving plan orders is at most the total
pre-reconciliation plan size plus 1e-6 per plan order (each reduction
moves exactly the pending size from plan to pending; a filtered-out plan
order can be at most 1e-6 below zero).  The strict per-bucket bound of
the claim fails by up to 1e-6 per order, as the counterexample shows. -/
theorem reduce_plan_size_conserving_global (pending plan : List Order) (m : ℚ)
    (hpos : ∀ o ∈ plan, 0 ≤ o.size) :
    size_sum (reduce_order_plan_size_based_on_pending_orders pending plan m).2 +
      size_sum (reduce_order_plan_size_based_on_pending_orders pending plan m).1 ≤
      size_sum plan + plan.length * (1/1000000) := by
  have hinv0 : ∀ o ∈ plan, -(1:ℚ)/1000000 ≤ o.size :=
    fun o ho => le_trans (by norm_num) (hpos o ho)
  have hsum := reconcile_loop_sum pending plan
  have hlb := reconcile_loop_lb pending plan hinv0
  have hlen := reconcile_loop_len pending plan
  have hfil := filter_sum_lb m (reconcile_loop pending plan).1 hlb
  rw [hlen] at hfil
  simp only [reduce_order_plan_size_based_on_pending_orders]
  linarith

/-- C4 (witness). -/
theorem reduce_plan_size_conserving_global_witness :
    size_sum (reduce_order_plan_size_based_on_pending_orders
        [⟨OType.YES, Side.BUY, 1/2, 3⟩] [⟨OType.YES, Side.BUY, 1/2, 7⟩] 1).2 +
      size_sum (reduce_order_plan_size_based_on_pending_orders
        [⟨OType.YES, Side.BUY, 1/2, 3⟩] [⟨OType.YES, Side.BUY, 1/2, 7⟩] 1).1 ≤
      size_sum [⟨OType.YES, Side.BUY, 1/2, 7⟩] +
        ([(⟨OType.YES, Side.BUY, 1/2, 7⟩ : Order)] : List Order).length *
          (1/1000000) :=
  reduce_plan_size_conserving_global _ _ 1
    (by intro o ho
        obtain rfl := List.mem_singleton.mp ho
        norm_num)

/-- C5 (counterexample).  With a NaN fair probability on a concrete cycle
input, get_order_plan raises (models the Python ValueError from
math.floor on NaN inside get_my_best_bid_ask) instead of returning the
empty order plan claimed by the spec. -/
theorem nan_order_plan_cex :
    get_order_plan_nan none (1/200) (1/100) 1 5 0 0 0 0
      [⟨48/100, 10⟩] [⟨55/100, 10⟩] = Except.error () ∧
    get_order_plan_nan none (1/200) (1/100) 1 5 0 0 0 0
      [⟨48/100, 10⟩] [⟨55/100, 10⟩] ≠ Except.ok [] := by
  have h : get_order_plan_nan none (1/200) (1/100) 1 5 0 0 0 0
      [⟨48/100, 10⟩] [⟨55/100, 10⟩] = Except.error () := rfl
  refine ⟨h, ?_⟩
  rw [h]
  intro hc
  exact Except.noConfusion hc

/-- C5 (amended).  A NaN fair probability is indeed never carried through
quote computation as a valid price, but not by suppression: on every
cycle input the NaN propagates through p - r, the sign test NaN < 0 is
false, and math.floor raises, so both the quote computation and the whole
order-plan construction raise instead of producing an empty plan; the
code has no handler or logging for this error. -/
theorem nan_quote_and_plan_raise (r tick bb ba m mi ys ns lo sh : ℚ)
    (bids asks : List PriceLevel) :
    get_my_best_bid_ask_nan none r tick bb ba = Except.error () ∧
    get_order_plan_nan none r tick m mi ys ns lo sh bids asks =
      Except.error () :=
  ⟨rfl, rfl⟩

end CryptoMain
